import Mathlib

/-!
Verification of the ATS multi-physics subsystem: a shallow embedding of the
evaluator graph, process-kernel hooks (admissibility, predictor and
correction modification), the subsurface MPC preconditioner selection, and
the FATES process kernel, together with theorems settling the specification
claims against the code.

Machine doubles are modelled as rationals; all arithmetic performed by the
embedded routines is exact on the inputs considered.
-/

namespace ATS

/-! ## EnergyBase::IsAdmissible (energy_base.cc)

The solution vector `up->Data()` has a "cell" component and possibly a
"face" component, distributed across MPI ranks.  Each rank scans its owned
entries starting from the sentinels `minT = 1.e6`, `maxT = -1.e6`, then the
communicator reduces with `MinAll` / `MaxAll` across ranks. -/

/-- Per-rank owned entries of the temperature vector: the "cell" component
and the "face" component (the latter is only read when the vector has a
face component). -/
structure RankTemps where
  cells : List ℚ
  faces : List ℚ
  deriving Repr, DecidableEq

/-- A distributed temperature vector: whether the composite vector has a
"face" component, and the per-rank owned entries. -/
structure TempState where
  hasFace : Bool
  ranks : List RankTemps
  deriving Repr, DecidableEq

/-- The sentinel `1.e6` used to initialize the running minimum in
`EnergyBase::IsAdmissible`. -/
def minSentinel : ℚ := 1000000

/-- The sentinel `-1.e6` used to initialize the running maximum in
`EnergyBase::IsAdmissible`. -/
def maxSentinel : ℚ := -1000000

/-- Rank-local minimum: fold of the cell loop (init `1.e6`), combined with
the face loop when the vector has a face component
(`minT = std::min(minT_c, minT_f)`), as in `EnergyBase::IsAdmissible`. -/
def localMinT (hasFace : Bool) (r : RankTemps) : ℚ :=
  let minT_c := r.cells.foldl min minSentinel
  if hasFace then min minT_c (r.faces.foldl min minSentinel) else minT_c

/-- Rank-local maximum: fold of the cell loop (init `-1.e6`), combined with
the face loop when the vector has a face component, as in
`EnergyBase::IsAdmissible`. -/
def localMaxT (hasFace : Bool) (r : RankTemps) : ℚ :=
  let maxT_c := r.cells.foldl max maxSentinel
  if hasFace then max maxT_c (r.faces.foldl max maxSentinel) else maxT_c

/-- `Comm::MinAll`: minimum of the per-rank values (a communicator always
has at least one rank; the value on `[]` is never used). -/
def minAll (l : List ℚ) : ℚ :=
  match l with
  | [] => minSentinel
  | x :: xs => xs.foldl min x

/-- `Comm::MaxAll`: maximum of the per-rank values (a communicator always
has at least one rank; the value on `[]` is never used). -/
def maxAll (l : List ℚ) : ℚ :=
  match l with
  | [] => maxSentinel
  | x :: xs => xs.foldl max x

/-- `EnergyBase::IsAdmissible`: global reduced extrema of the temperature
vector; inadmissible iff `minT < 200.0 || maxT > 330.0`. -/
def isAdmissible (s : TempState) : Bool :=
  let minT := minAll (s.ranks.map (localMinT s.hasFace))
  let maxT := maxAll (s.ranks.map (localMaxT s.hasFace))
  if minT < 200 ∨ maxT > 330 then false else true

/-- All entries the admissibility scan ranges over: every rank's cell
values, plus its face values when the vector has a face component. -/
def allTempValues (s : TempState) : List ℚ :=
  (s.ranks.map (fun r => r.cells ++ if s.hasFace then r.faces else [])).flatten

/-- True global minimum of a nonempty list of values (value on `[]`
irrelevant). -/
def trueMin (l : List ℚ) : ℚ :=
  match l with
  | [] => 0
  | x :: xs => xs.foldl min x

/-- True global maximum of a nonempty list of values (value on `[]`
irrelevant). -/
def trueMax (l : List ℚ) : ℚ :=
  match l with
  | [] => 0
  | x :: xs => xs.foldl max x

/-! ## MPCSubsurface preconditioner selection and dispatch (mpc_subsurface.cc) -/

/-- The preconditioning strategies of `MPCSubsurface`. -/
inductive PreconType where
  | PRECON_NONE
  | PRECON_BLOCK_DIAGONAL
  | PRECON_PICARD
  | PRECON_EWC
  deriving Repr, DecidableEq

/-- `MPCSubsurface::setup`, preconditioner selection: reads the
`"preconditioner type"` entry (default `"picard"` when the key is absent)
and maps it to a strategy; any other string throws an `Errors::Message`
naming the offending value. -/
def setupPreconType (configured : Option String) : Except String PreconType :=
  let precon_string := configured.getD "picard"
  if precon_string = "none" then .ok .PRECON_NONE
  else if precon_string = "block diagonal" then .ok .PRECON_BLOCK_DIAGONAL
  else if precon_string = "picard" then .ok .PRECON_PICARD
  else if precon_string = "ewc" then .ok .PRECON_EWC
  else if precon_string = "smart ewc" then .ok .PRECON_EWC
  else .error ("Invalid preconditioner type " ++ precon_string)

/-- The collaborator operations `MPCSubsurface::precon` dispatches to: the
inherited block-diagonal preconditioner (`StrongMPC::precon`), the
monolithic coupled-cell preconditioner (`MPCCoupledCells::precon`), the
EWC delegate (`ewc_->precon`, reading `u` and revising the cell values of
the already-computed `Pu`), and the consistent-face-correction
post-processing (`UpdateConsistentFaceCorrection` of the delegate's delta
followed by the face updates).  They are opaque collaborators
(linear-algebra backend and delegate strategy), so they are parameters of
the embedding. -/
structure MPCPreconOps (V : Type) where
  strongPrecon : V → V
  coupledPrecon : V → V
  ewcPrecon : V → V → V
  ewcFaceFix : V → V → V

/-- `MPCSubsurface::precon`: dispatch on `precon_type_`.  `PRECON_NONE`
copies `u`; `PRECON_BLOCK_DIAGONAL` applies `StrongMPC::precon`;
`PRECON_PICARD` applies `MPCCoupledCells::precon`; `PRECON_EWC` applies
`MPCCoupledCells::precon`, then the EWC delegate, then back-calculates
face corrections consistent with the delegate's cell correction. -/
def mpcPrecon {V : Type} (ops : MPCPreconOps V) (preconType : PreconType)
    (u : V) : V :=
  match preconType with
  | .PRECON_NONE => u
  | .PRECON_BLOCK_DIAGONAL => ops.strongPrecon u
  | .PRECON_PICARD => ops.coupledPrecon u
  | .PRECON_EWC =>
      let pu_std := ops.coupledPrecon u
      let pu_ewc := ops.ewcPrecon u pu_std
      ops.ewcFaceFix pu_std pu_ewc

/-- The collaborator operations `MPCSubsurface::update_precon` dispatches
to, as state transformers. -/
structure MPCUpdateOps (S : Type) where
  strongUpdate : S → S
  coupledUpdate : S → S
  ewcUpdate : S → S

/-- `MPCSubsurface::update_precon`: dispatch on `precon_type_`.
`PRECON_NONE` does nothing; `PRECON_BLOCK_DIAGONAL` calls
`StrongMPC::update_precon`; `PRECON_PICARD` calls
`MPCCoupledCells::update_precon`; `PRECON_EWC` calls
`MPCCoupledCells::update_precon` then `ewc_->update_precon`. -/
def mpcUpdatePrecon {S : Type} (ops : MPCUpdateOps S) (preconType : PreconType)
    (s : S) : S :=
  match preconType with
  | .PRECON_NONE => s
  | .PRECON_BLOCK_DIAGONAL => ops.strongUpdate s
  | .PRECON_PICARD => ops.coupledUpdate s
  | .PRECON_EWC => ops.ewcUpdate (ops.coupledUpdate s)

/-! ## EnergyBase::ModifyCorrection and EnergyBase::ModifyPredictor
(energy_base.cc)

The solution vector of the energy PK (finite-volume discretization) has a
"cell" component and a "boundary_face" component; `ModifyCorrection` first
reconstructs the boundary-face corrections from the cell corrections
(preserving the local diffusive-flux relation) and then, when a positive
temperature limit is configured, clips every entry of every component of
`du` to that magnitude, counting the clipped entries across ranks; the
return value is computed from that count alone. -/

/-- `AmanziSolvers::FnBaseDefs::ModifyCorrectionResult`. -/
inductive ModifyCorrectionResult where
  | CORRECTION_NOT_MODIFIED
  | CORRECTION_MODIFIED
  deriving Repr, DecidableEq

/-- Boundary-condition marker values (`Operators::OPERATOR_BC_*`). -/
inductive BCMarker where
  | NONE
  | DIRICHLET
  | NEUMANN
  deriving Repr, DecidableEq

/-- The mesh and boundary-condition context `ModifyCorrection` reads: the
diffusion markers `bc_markers()`, the advective markers
`bc_adv_->bc_model()`, the boundary values `bc_values()`, face areas, the
shadow accumulation entries `matrices_shadow[f](0,0)`, the
boundary-face-to-face map `getBoundaryFaceFace` and the face-to-internal-
cell map `getFaceOnBoundaryInternalCell`. -/
structure EnergyBCContext where
  markers : ℕ → BCMarker
  advMarkers : ℕ → BCMarker
  bcValues : ℕ → ℚ
  faceArea : ℕ → ℚ
  accMatrix : ℕ → ℚ
  bfFace : ℕ → ℕ
  cellOfFace : ℕ → ℕ

/-- The boundary-face reconstruction loop of
`EnergyBase::ModifyCorrection`: for each boundary face under a diffusive
flux BC (`NEUMANN` diffusion marker with `DIRICHLET` advection marker),
back-calculate the boundary-face value
`T_bf_val = (Acc*(T_c[c] - dT_c[c]) - bc_values[f]*area(f)) / Acc` and set
`dT_bf[bf] = T_bf[bf] - T_bf_val`; other entries are left unchanged.  The
boundary-face views of `u` and `du` share one map, hence one length. -/
def reconstructBF (ctx : EnergyBCContext) (T_c T_bf dT_c dT_bf : List ℚ) :
    List ℚ :=
  (List.range dT_bf.length).map fun bf =>
    let f := ctx.bfFace bf
    if ctx.markers f = .NEUMANN ∧ ctx.advMarkers f = .DIRICHLET then
      let acc := ctx.accMatrix f
      let c := ctx.cellOfFace f
      let t_bf_val := (acc * (T_c.getD c 0 - dT_c.getD c 0) -
        ctx.bcValues f * ctx.faceArea f) / acc
      T_bf.getD bf 0 - t_bf_val
    else dT_bf.getD bf 0

/-- The clipped value `((du > 0) - (du < 0)) * T_limit_` written when
`|du| > T_limit_`. -/
def clipVal (tLimit v : ℚ) : ℚ :=
  if |v| > tLimit then
    (((if v > 0 then 1 else 0) : ℚ) - (if v < 0 then 1 else 0)) * tLimit
  else v

/-- The clipping loop of `EnergyBase::ModifyCorrection` on one component. -/
def clipComp (tLimit : ℚ) (l : List ℚ) : List ℚ :=
  l.map (clipVal tLimit)

/-- The count `my_limited` of entries clipped on one component. -/
def numLimited (tLimit : ℚ) (l : List ℚ) : ℕ :=
  l.countP fun v => |v| > tLimit

/-- The across-rank count `n_limited` of `EnergyBase::ModifyCorrection`:
zero when no positive temperature limit is configured (the clipping loop
and its `SumAll` are skipped), otherwise the clipped entries of every
component of `du` plus the other ranks' contribution. -/
def correctionLimitedCount (tLimit : ℚ) (hasBF : Bool) (dT_c dT_bf1 : List ℚ)
    (otherRanksLimited : ℕ) : ℕ :=
  if tLimit > 0 then
    numLimited tLimit dT_c + (if hasBF then numLimited tLimit dT_bf1 else 0) +
      otherRanksLimited
  else 0

/-- `EnergyBase::ModifyCorrection(h, res, u, du)`: boundary-face
reconstruction (when the vector has a boundary-face component), then,
when `T_limit_ > 0`, magnitude clipping of every component of `du` with
the across-rank count `n_limited` (`SumAll`; `otherRanksLimited` is the
other ranks' contribution); returns `CORRECTION_MODIFIED` iff
`n_limited > 0`.  Output: the final `(dT_c, dT_bf)` and the result flag. -/
def modifyCorrection (ctx : EnergyBCContext) (hasBF : Bool) (tLimit : ℚ)
    (otherRanksLimited : ℕ) (T_c T_bf dT_c dT_bf : List ℚ) :
    (List ℚ × List ℚ) × ModifyCorrectionResult :=
  let dT_bf1 := if hasBF then reconstructBF ctx T_c T_bf dT_c dT_bf else dT_bf
  let n := correctionLimitedCount tLimit hasBF dT_c dT_bf1 otherRanksLimited
  ((if tLimit > 0 then clipComp tLimit dT_c else dT_c,
      if tLimit > 0 then (if hasBF then clipComp tLimit dT_bf1 else dT_bf1)
      else dT_bf1),
    if n > 0 then .CORRECTION_MODIFIED else .CORRECTION_NOT_MODIFIED)

/-- The solution view the predictor modification works on: the "cell"
component, the optional "boundary_face" component, and the "face"
component written by `CalculateConsistentFaces`. -/
structure PredVec where
  cell : List ℚ
  bf : Option (List ℚ)
  face : List ℚ
  deriving Repr, DecidableEq

/-- The freezing snap of `EnergyBase::ModifyPredictor` on one entry: a
predictor crossing the freezing point `273.15` relative to `u0` is snapped
to just past the threshold (`273.15 ∓ .00001`), flagged as modified. -/
def freezeSnap (u0c uc : ℚ) : ℚ × Bool :=
  if u0c > 27315 / 100 ∧ uc < 27315 / 100 then
    (27315 / 100 - 1 / 100000, true)
  else if u0c < 27315 / 100 ∧ uc > 27315 / 100 then
    (27315 / 100 + 1 / 100000, true)
  else (uc, false)

/-- The freezing-snap loop of `EnergyBase::ModifyPredictor` over one
component (`u0` and `u` views have one length), returning the new values
and whether any entry triggered the snap. -/
def snapList (u0 u : List ℚ) : List ℚ × Bool :=
  match u0, u with
  | [], _ => (u, false)
  | _ :: _, [] => ([], false)
  | x :: xs, y :: ys =>
      ((freezeSnap x y).1 :: (snapList xs ys).1,
        (freezeSnap x y).2 || (snapList xs ys).2)

/-- `EnergyBase::ModifyPredictor(h, u0, u)`: when "modify predictor for
freezing" is set, snap the cell values (and the boundary-face values when
that component exists) across the freezing point; when "modify predictor
with consistent faces" is set, recompute the face values by the
consistent-face solve (`CalculateConsistentFaces`, a linear-algebra
collaborator, here a function parameter) and set `modified = true`
unconditionally.  Returns the new vector and the modified flag. -/
def modifyPredictor (freezing consistentFaces : Bool)
    (ccFaces : PredVec → List ℚ) (u0 u : PredVec) : PredVec × Bool :=
  let fr :=
    if freezing then
      match u0.bf, u.bf with
      | some b0, some b =>
          (⟨(snapList u0.cell u.cell).1, some (snapList b0 b).1, u.face⟩,
            (snapList u0.cell u.cell).2 || (snapList b0 b).2)
      | _, _ =>
          (⟨(snapList u0.cell u.cell).1, u.bf, u.face⟩,
            (snapList u0.cell u.cell).2)
    else (u, false)
  if consistentFaces then (⟨fr.1.cell, fr.1.bf, ccFaces fr.1⟩, true)
  else fr

/-! ## WaterTableColumnsEvaluator::HasFieldChanged
(water_table_columns_evaluator.cc) -/

/-- The change-detection state of one secondary evaluator: the number of
executions of its pointwise evaluation function (`UpdateField_` calls),
whether a dependency has changed since the evaluator last observed its
dependencies, the requesters that have observed the current value, and
the `updated_once_` flag of `WaterTableColumnsEvaluator`. -/
structure WTEvalState where
  recomputeCount : ℕ
  depsChanged : Bool
  requests : List String
  updatedOnce : Bool
  deriving Repr, DecidableEq

/-- Modelled from the spec: `SecondaryVariableFieldEvaluator::
HasFieldChanged`, whose implementation is not among the provided sources
(spec section 4.1, `HasChanged`): if any dependency changed since the last
observation, recompute the field by calling the pure function once, bump
the change token (clearing the observers to the present requester) and
return true; otherwise return true to a requester that has not yet
observed the current value and false, without recomputation, to one that
has. -/
def baseHasFieldChanged (s : WTEvalState) (req : String) :
    WTEvalState × Bool :=
  if s.depsChanged then
    ({ s with recomputeCount := s.recomputeCount + 1, depsChanged := false,
              requests := [req] }, true)
  else if req ∈ s.requests then (s, false)
  else ({ s with requests := req :: s.requests }, true)

/-- `WaterTableColumnsEvaluator::HasFieldChanged` (from source): call the
base-class change detection, then, if not yet `updated_once_`, call
`UpdateField_` unconditionally — recomputing the field again even when the
base call just did — set the flag, and return true; afterwards forward the
base result. -/
def wtHasFieldChanged (s : WTEvalState) (req : String) :
    WTEvalState × Bool :=
  let r := baseHasFieldChanged s req
  if !r.1.updatedOnce then
    ({ r.1 with recomputeCount := r.1.recomputeCount + 1,
                updatedOnce := true }, true)
  else r

/-! ## OverlandConductivitySubgridEvaluator
(overland_conductivity_subgrid_evaluator.cc)

The evaluator computes the surface-flow subgrid conductivity from six
declared dependencies.  `EnsureCompatibility` checks, at graph-build time,
that no declared dependency equals the evaluator's own primary key;
`EvaluateField_` is a plain elementwise computation with no cycle check. -/

/-- The closure model object held by the evaluator
(`ManningConductivityModel`): a pure pointwise function of depth, slope
and coefficient, with its declared depth partial.  Opaque strategy
object, hence function-valued fields. -/
structure ManningModel where
  Conductivity : ℚ → ℚ → ℚ → ℚ
  DConductivityDDepth : ℚ → ℚ → ℚ → ℚ

/-- Per-component views of the six dependencies of
`OverlandConductivitySubgridEvaluator` (the "cell" component). -/
structure OverlandDeps where
  mobile_depth : List ℚ
  slope : List ℚ
  coef : List ℚ
  frac_cond : List ℚ
  drag : List ℚ
  dens : List ℚ
  deriving Repr, DecidableEq

/-- `OverlandConductivitySubgridEvaluator::EvaluateField_`: for every cell
`i`, `result[i] = Conductivity(mobile_depth[i], slope[i], coef[i]) *
dens[i] * pow(frac_cond[i], drag[i] + 1)`.  `std::pow` (libm, an external
collaborator) is a parameter. -/
def overlandEvaluateField (fpow : ℚ → ℚ → ℚ) (model : ManningModel)
    (d : OverlandDeps) (ncomp : ℕ) : List ℚ :=
  (List.range ncomp).map fun i =>
    model.Conductivity (d.mobile_depth.getD i 0) (d.slope.getD i 0)
        (d.coef.getD i 0) *
      (d.dens.getD i 0 * fpow (d.frac_cond.getD i 0) (d.drag.getD i 0 + 1))

/-- The message thrown by
`OverlandConductivitySubgridEvaluator::EnsureCompatibility` on a
self-dependency. -/
def selfDepMsg (myKey : String) : String :=
  "Evaluator for key \"" ++ myKey ++ "\" depends upon itself."

/-- The dependency loop of
`OverlandConductivitySubgridEvaluator::EnsureCompatibility`: for each
declared dependency in order, throw if it equals the primary key,
otherwise require it with the cell layout (adding a boundary-face
component for the mobile-depth key when the primary field has one).
Returns the list of (key, boundary-face-added) requirements. -/
def overlandCompatLoop (myKey mobileDepthKey : String)
    (myHasBoundaryFace : Bool) (deps : List String) :
    Except String (List (String × Bool)) :=
  match deps with
  | [] => .ok []
  | key :: rest =>
      if key = myKey then .error (selfDepMsg myKey)
      else
        (overlandCompatLoop myKey mobileDepthKey myHasBoundaryFace rest).map
          (fun l => (key, key = mobileDepthKey && myHasBoundaryFace) :: l)

/-- `OverlandConductivitySubgridEvaluator::EnsureCompatibility`: when the
primary factory's mesh is not yet set, defer (no requirement propagated,
no check); otherwise run the dependency loop, which throws a fatal
configuration error naming the key on a self-dependency. -/
def overlandEnsureCompatibility (myKey mobileDepthKey : String)
    (meshSet myHasBoundaryFace : Bool) (deps : List String) :
    Except String (List (String × Bool)) :=
  if meshSet then
    overlandCompatLoop myKey mobileDepthKey myHasBoundaryFace deps
  else .ok []

/-! ## RichardsEnergyEvaluator and LiquidIceEnergyEvaluator
(richards_energy_evaluator.cc, liquid_ice_energy_evaluator.cc)

Both are generated algebraic evaluators over a closure model object.  The
model's pointwise functions are opaque strategy objects (swappable, spec
section 1), hence function-valued fields.  A composite vector component is
a list of values; a dependency is viewed at the same component as the
result. -/

/-- The `RichardsEnergyModel` interface used by
`RichardsEnergyEvaluator::EvaluateField_`: energy as a pointwise function
of the eight co-located dependency values. -/
structure RichardsEnergyModel where
  Energy : ℚ → ℚ → ℚ → ℚ → ℚ → ℚ → ℚ → ℚ → ℚ

/-- Same-component views of the eight dependencies of
`RichardsEnergyEvaluator` (porosity, base porosity, liquid saturation,
liquid molar density, liquid internal energy, rock density, rock internal
energy, cell volume). -/
structure RichardsCompDeps where
  phi : List ℚ
  phi0 : List ℚ
  sl : List ℚ
  nl : List ℚ
  ul : List ℚ
  rho_r : List ℚ
  ur : List ℚ
  cv : List ℚ
  deriving Repr, DecidableEq

/-- The value `RichardsEnergyEvaluator::EvaluateField_` writes at entity
`i`: the model's `Energy` applied to the dependency values at index `i`. -/
def richardsEnergyAt (m : RichardsEnergyModel) (d : RichardsCompDeps)
    (i : ℕ) : ℚ :=
  m.Energy (d.phi.getD i 0) (d.phi0.getD i 0) (d.sl.getD i 0) (d.nl.getD i 0)
    (d.ul.getD i 0) (d.rho_r.getD i 0) (d.ur.getD i 0) (d.cv.getD i 0)

/-- The inner entity loop of `RichardsEnergyEvaluator::EvaluateField_` on
one component of size `n`. -/
def richardsEvalComp (m : RichardsEnergyModel) (d : RichardsCompDeps)
    (n : ℕ) : List ℚ :=
  (List.range n).map (richardsEnergyAt m d)

/-- `RichardsEnergyEvaluator::EvaluateField_`: the outer loop over the
result's named components, each evaluated by the inner entity loop against
that component's dependency views. -/
def richardsEvaluateField (m : RichardsEnergyModel)
    (d : String → RichardsCompDeps) (comps : List (String × ℕ)) :
    List (String × List ℚ) :=
  comps.map fun c => (c.1, richardsEvalComp m (d c.1) c.2)

/-- Agreement of two dependency states at one entity index: all eight
co-located dependency values coincide there. -/
def richardsAgreeAt (d d' : RichardsCompDeps) (i : ℕ) : Prop :=
  d.phi.getD i 0 = d'.phi.getD i 0 ∧ d.phi0.getD i 0 = d'.phi0.getD i 0 ∧
  d.sl.getD i 0 = d'.sl.getD i 0 ∧ d.nl.getD i 0 = d'.nl.getD i 0 ∧
  d.ul.getD i 0 = d'.ul.getD i 0 ∧ d.rho_r.getD i 0 = d'.rho_r.getD i 0 ∧
  d.ur.getD i 0 = d'.ur.getD i 0 ∧ d.cv.getD i 0 = d'.cv.getD i 0

/-- The `LiquidIceEnergyModel` interface used by
`LiquidIceEnergyEvaluator`: energy as a pointwise function of the eleven
co-located dependency values, together with the eleven declared partial
derivatives dispatched by `EvaluateFieldPartialDerivative_`. -/
structure LiquidIceEnergyModel where
  Energy : ℚ → ℚ → ℚ → ℚ → ℚ → ℚ → ℚ → ℚ → ℚ → ℚ → ℚ → ℚ
  DEnergyDPorosity : ℚ → ℚ → ℚ → ℚ → ℚ → ℚ → ℚ → ℚ → ℚ → ℚ → ℚ → ℚ
  DEnergyDBasePorosity : ℚ → ℚ → ℚ → ℚ → ℚ → ℚ → ℚ → ℚ → ℚ → ℚ → ℚ → ℚ
  DEnergyDSaturationLiquid : ℚ → ℚ → ℚ → ℚ → ℚ → ℚ → ℚ → ℚ → ℚ → ℚ → ℚ → ℚ
  DEnergyDMolarDensityLiquid : ℚ → ℚ → ℚ → ℚ → ℚ → ℚ → ℚ → ℚ → ℚ → ℚ → ℚ → ℚ
  DEnergyDInternalEnergyLiquid : ℚ → ℚ → ℚ → ℚ → ℚ → ℚ → ℚ → ℚ → ℚ → ℚ → ℚ → ℚ
  DEnergyDSaturationIce : ℚ → ℚ → ℚ → ℚ → ℚ → ℚ → ℚ → ℚ → ℚ → ℚ → ℚ → ℚ
  DEnergyDMolarDensityIce : ℚ → ℚ → ℚ → ℚ → ℚ → ℚ → ℚ → ℚ → ℚ → ℚ → ℚ → ℚ
  DEnergyDInternalEnergyIce : ℚ → ℚ → ℚ → ℚ → ℚ → ℚ → ℚ → ℚ → ℚ → ℚ → ℚ → ℚ
  DEnergyDDensityRock : ℚ → ℚ → ℚ → ℚ → ℚ → ℚ → ℚ → ℚ → ℚ → ℚ → ℚ → ℚ
  DEnergyDInternalEnergyRock : ℚ → ℚ → ℚ → ℚ → ℚ → ℚ → ℚ → ℚ → ℚ → ℚ → ℚ → ℚ
  DEnergyDCellVolume : ℚ → ℚ → ℚ → ℚ → ℚ → ℚ → ℚ → ℚ → ℚ → ℚ → ℚ → ℚ

/-- The eleven dependency keys of `LiquidIceEnergyEvaluator`, as resolved
by `InitializeFromPlist_`. -/
structure LiquidIceKeys where
  phi_key : String
  phi0_key : String
  sl_key : String
  nl_key : String
  ul_key : String
  si_key : String
  ni_key : String
  ui_key : String
  rho_r_key : String
  ur_key : String
  cv_key : String
  deriving Repr, DecidableEq

/-- The dependency set `dependencies_` inserted by
`LiquidIceEnergyEvaluator::InitializeFromPlist_`. -/
def liquidIceDepKeys (k : LiquidIceKeys) : List String :=
  [k.phi_key, k.phi0_key, k.sl_key, k.nl_key, k.ul_key, k.si_key, k.ni_key,
    k.ui_key, k.rho_r_key, k.ur_key, k.cv_key]

/-- Same-component views of the eleven dependencies of
`LiquidIceEnergyEvaluator`. -/
structure LiquidIceCompDeps where
  phi : List ℚ
  phi0 : List ℚ
  sl : List ℚ
  nl : List ℚ
  ul : List ℚ
  si : List ℚ
  ni : List ℚ
  ui : List ℚ
  rho_r : List ℚ
  ur : List ℚ
  cv : List ℚ
  deriving Repr, DecidableEq

/-- Application of one of the model's pointwise functions to the eleven
co-located dependency values at entity `i` — the body of every entity loop
of `LiquidIceEnergyEvaluator`. -/
def liquidIceApplyAt
    (f : ℚ → ℚ → ℚ → ℚ → ℚ → ℚ → ℚ → ℚ → ℚ → ℚ → ℚ → ℚ)
    (d : LiquidIceCompDeps) (i : ℕ) : ℚ :=
  f (d.phi.getD i 0) (d.phi0.getD i 0) (d.sl.getD i 0) (d.nl.getD i 0)
    (d.ul.getD i 0) (d.si.getD i 0) (d.ni.getD i 0) (d.ui.getD i 0)
    (d.rho_r.getD i 0) (d.ur.getD i 0) (d.cv.getD i 0)

/-- The component-and-entity double loop shared by
`LiquidIceEnergyEvaluator::EvaluateField_` and every branch of
`EvaluateFieldPartialDerivative_`, applying one pointwise function
elementwise on every named component of the result. -/
def liquidIceMapAll
    (f : ℚ → ℚ → ℚ → ℚ → ℚ → ℚ → ℚ → ℚ → ℚ → ℚ → ℚ → ℚ)
    (d : String → LiquidIceCompDeps) (comps : List (String × ℕ)) :
    List (String × List ℚ) :=
  comps.map fun c => (c.1, (List.range c.2).map (liquidIceApplyAt f (d c.1)))

/-- `LiquidIceEnergyEvaluator::EvaluateField_`: the model's `Energy`
applied elementwise. -/
def liquidIceEvaluateField (m : LiquidIceEnergyModel)
    (d : String → LiquidIceCompDeps) (comps : List (String × ℕ)) :
    List (String × List ℚ) :=
  liquidIceMapAll m.Energy d comps

/-- Agreement of two dependency states at one entity index of one
component: all eleven co-located dependency values coincide there. -/
def liquidIceAgreeAt (d d' : LiquidIceCompDeps) (i : ℕ) : Prop :=
  d.phi.getD i 0 = d'.phi.getD i 0 ∧ d.phi0.getD i 0 = d'.phi0.getD i 0 ∧
  d.sl.getD i 0 = d'.sl.getD i 0 ∧ d.nl.getD i 0 = d'.nl.getD i 0 ∧
  d.ul.getD i 0 = d'.ul.getD i 0 ∧ d.si.getD i 0 = d'.si.getD i 0 ∧
  d.ni.getD i 0 = d'.ni.getD i 0 ∧ d.ui.getD i 0 = d'.ui.getD i 0 ∧
  d.rho_r.getD i 0 = d'.rho_r.getD i 0 ∧ d.ur.getD i 0 = d'.ur.getD i 0 ∧
  d.cv.getD i 0 = d'.cv.getD i 0

/-- `LiquidIceEnergyEvaluator::EvaluateFieldPartialDerivative_`: the
if-chain on `wrt_key` over the eleven direct dependency keys, each branch
applying the corresponding declared partial elementwise; any other key
reaches `AMANZI_ASSERT(0)`, modelled as `.error ()`. -/
def liquidIceEvaluatePD (m : LiquidIceEnergyModel) (k : LiquidIceKeys)
    (wrt : String) (d : String → LiquidIceCompDeps)
    (comps : List (String × ℕ)) : Except Unit (List (String × List ℚ)) :=
  if wrt = k.phi_key then .ok (liquidIceMapAll m.DEnergyDPorosity d comps)
  else if wrt = k.phi0_key then
    .ok (liquidIceMapAll m.DEnergyDBasePorosity d comps)
  else if wrt = k.sl_key then
    .ok (liquidIceMapAll m.DEnergyDSaturationLiquid d comps)
  else if wrt = k.nl_key then
    .ok (liquidIceMapAll m.DEnergyDMolarDensityLiquid d comps)
  else if wrt = k.ul_key then
    .ok (liquidIceMapAll m.DEnergyDInternalEnergyLiquid d comps)
  else if wrt = k.si_key then
    .ok (liquidIceMapAll m.DEnergyDSaturationIce d comps)
  else if wrt = k.ni_key then
    .ok (liquidIceMapAll m.DEnergyDMolarDensityIce d comps)
  else if wrt = k.ui_key then
    .ok (liquidIceMapAll m.DEnergyDInternalEnergyIce d comps)
  else if wrt = k.rho_r_key then
    .ok (liquidIceMapAll m.DEnergyDDensityRock d comps)
  else if wrt = k.ur_key then
    .ok (liquidIceMapAll m.DEnergyDInternalEnergyRock d comps)
  else if wrt = k.cv_key then
    .ok (liquidIceMapAll m.DEnergyDCellVolume d comps)
  else .error ()

/-! ## FATES_PK::AdvanceStep (fates_pk.cc)

The FATES process kernel advances an externally coupled biophysical model
(`wrap_photosynthesis`, `dynamics_driv_per_site`, ...) at two sub-cycle
cadences.  The external Fortran calls are outside this core (spec section 6)
and influence neither the returned failure flag nor the bookkeeping fields
embedded here. -/

/-- The calendar record `time_input_` filled by `FATES_PK::AdvanceStep`. -/
structure TimeInput where
  current_year : ℤ
  current_month : ℤ
  current_day : ℤ
  model_day : ℤ
  current_tod : ℚ
  day_of_year : ℤ
  current_date : ℤ
  deriving Repr, DecidableEq

/-- The bookkeeping state of `FATES_PK` read and written by `AdvanceStep`:
the last sub-cycle times and periods for photosynthesis and vegetation
dynamics, the `S_inter_` time, and the calendar record. -/
structure FatesState where
  t_photosynthesis : ℚ
  dt_photosynthesis : ℚ
  t_site_dym : ℚ
  dt_site_dym : ℚ
  time_inter : ℚ
  time_input : TimeInput
  deriving Repr, DecidableEq

/-- `days_month` after the in-place prefix-sum loop of `AdvanceStep`:
cumulative days at the end of each month. -/
def daysMonthCum : List ℤ := [31, 59, 90, 120, 151, 181, 212, 243, 273, 304, 334, 365]

/-- One iteration of the descending month-lookup loop of `AdvanceStep`:
when `doy` is at most the cumulative days through month `i`, overwrite the
month index and day-of-month. -/
def monthDayStep (doy : ℤ) (st : ℤ × ℤ) (i : ℕ) : ℤ × ℤ :=
  if doy ≤ daysMonthCum.getD i 0 then
    ((i : ℤ) + 1, if i > 0 then doy - daysMonthCum.getD (i - 1) 0 else doy)
  else st

/-- The descending loop `for(int i = 11; i >= 0; i--)` of `AdvanceStep`
computing the current month and day-of-month from the day of year. -/
def monthDay (doy : ℤ) : ℤ × ℤ :=
  ((List.range 12).reverse).foldl (monthDayStep doy) (1, 1)

/-- `FATES_PK::AdvanceStep(t_old, t_new, reinit)`: pulls the met forcing
fields, decides the photosynthesis and vegetation-dynamics sub-cycles,
runs the external model for each triggered sub-cycle (advancing its
bookkeeping time to `t_new`), fills the calendar record, and returns
`false` — the single `return` statement of the function.  `std::fmod` is
taken at the nonnegative simulation times the driver supplies. -/
def FATES_advanceStep (s : FatesState) (t_old t_new : ℚ) (reinit : Bool) :
    FatesState × Bool :=
  let _dtime := t_new - t_old
  let run_photo :=
    |t_new - (s.t_photosynthesis + s.dt_photosynthesis)| <
      (1 / 1000000000000 : ℚ) * t_new
  let run_veg_dym :=
    |t_new - (s.t_site_dym + s.dt_site_dym)| < (1 / 1000000000000 : ℚ) * t_new
  let _ := reinit
  let t_days := s.time_inter / 86400
  let doy : ℤ := ⌊t_days - 365 * (⌊t_days / 365⌋ : ℤ)⌋ + 1
  let s1 := if run_photo then { s with t_photosynthesis := t_new } else s
  let md := monthDay doy
  let year : ℤ := 1990 + ⌈t_days / 365⌉
  let ti : TimeInput :=
    { current_year := year
      current_month := md.1
      current_day := md.2
      model_day := ⌈t_days⌉
      current_tod := 86400 * (t_days - (⌊t_days⌋ : ℤ))
      day_of_year := doy
      current_date := year * 10000 + md.1 * 100 + md.2 }
  let s2 := { s1 with time_input := ti }
  let s3 := if run_veg_dym then { s2 with t_site_dym := t_new } else s2
  (s3, false)

end ATS

namespace ATS

/-! ## Theorems -/

theorem foldl_min_lt_iff (l : List ℚ) (a c : ℚ) :
    l.foldl min a < c ↔ a < c ∨ ∃ x ∈ l, x < c := by
  induction l generalizing a with
  | nil => simp
  | cons y ys ih =>
      simp only [List.foldl_cons, ih, min_lt_iff, List.mem_cons]
      constructor
      · rintro (⟨h | h⟩ | ⟨x, hx, hxc⟩)
        · exact Or.inl h
        · exact Or.inr ⟨y, Or.inl rfl, h⟩
        · exact Or.inr ⟨x, Or.inr hx, hxc⟩
      · rintro (h | ⟨x, hx | hx, hxc⟩)
        · exact Or.inl (Or.inl h)
        · exact Or.inl (Or.inr (hx ▸ hxc))
        · exact Or.inr ⟨x, hx, hxc⟩

theorem lt_foldl_max_iff (l : List ℚ) (a c : ℚ) :
    c < l.foldl max a ↔ c < a ∨ ∃ x ∈ l, c < x := by
  induction l generalizing a with
  | nil => simp
  | cons y ys ih =>
      simp only [List.foldl_cons, ih, lt_max_iff, List.mem_cons]
      constructor
      · rintro (⟨h | h⟩ | ⟨x, hx, hxc⟩)
        · exact Or.inl h
        · exact Or.inr ⟨y, Or.inl rfl, h⟩
        · exact Or.inr ⟨x, Or.inr hx, hxc⟩
      · rintro (h | ⟨x, hx | hx, hxc⟩)
        · exact Or.inl (Or.inl h)
        · exact Or.inl (Or.inr (hx ▸ hxc))
        · exact Or.inr ⟨x, hx, hxc⟩

theorem minAll_lt_iff (l : List ℚ) (h : l ≠ []) (c : ℚ) :
    minAll l < c ↔ ∃ x ∈ l, x < c := by
  match l with
  | x :: xs =>
      simp only [minAll, foldl_min_lt_iff, List.mem_cons]
      constructor
      · rintro (h | ⟨y, hy, hyc⟩)
        · exact ⟨x, Or.inl rfl, h⟩
        · exact ⟨y, Or.inr hy, hyc⟩
      · rintro ⟨y, hy | hy, hyc⟩
        · exact Or.inl (hy ▸ hyc)
        · exact Or.inr ⟨y, hy, hyc⟩

theorem lt_maxAll_iff (l : List ℚ) (h : l ≠ []) (c : ℚ) :
    c < maxAll l ↔ ∃ x ∈ l, c < x := by
  match l with
  | x :: xs =>
      simp only [maxAll, lt_foldl_max_iff, List.mem_cons]
      constructor
      · rintro (h | ⟨y, hy, hyc⟩)
        · exact ⟨x, Or.inl rfl, h⟩
        · exact ⟨y, Or.inr hy, hyc⟩
      · rintro ⟨y, hy | hy, hyc⟩
        · exact Or.inl (hy ▸ hyc)
        · exact Or.inr ⟨y, hy, hyc⟩

theorem trueMin_lt_iff (l : List ℚ) (h : l ≠ []) (c : ℚ) :
    trueMin l < c ↔ ∃ x ∈ l, x < c := by
  match l with
  | x :: xs =>
      simp only [trueMin, foldl_min_lt_iff, List.mem_cons]
      constructor
      · rintro (h | ⟨y, hy, hyc⟩)
        · exact ⟨x, Or.inl rfl, h⟩
        · exact ⟨y, Or.inr hy, hyc⟩
      · rintro ⟨y, hy | hy, hyc⟩
        · exact Or.inl (hy ▸ hyc)
        · exact Or.inr ⟨y, hy, hyc⟩

theorem lt_trueMax_iff (l : List ℚ) (h : l ≠ []) (c : ℚ) :
    c < trueMax l ↔ ∃ x ∈ l, c < x := by
  match l with
  | x :: xs =>
      simp only [trueMax, lt_foldl_max_iff, List.mem_cons]
      constructor
      · rintro (h | ⟨y, hy, hyc⟩)
        · exact ⟨x, Or.inl rfl, h⟩
        · exact ⟨y, Or.inr hy, hyc⟩
      · rintro ⟨y, hy | hy, hyc⟩
        · exact Or.inl (hy ▸ hyc)
        · exact Or.inr ⟨y, hy, hyc⟩

/-- Membership in the admissibility scan corresponds to a rank holding the
value in its scanned components. -/
theorem mem_allTempValues (s : TempState) (v : ℚ) :
    v ∈ allTempValues s ↔
      ∃ r ∈ s.ranks, v ∈ r.cells ++ if s.hasFace then r.faces else [] := by
  simp only [allTempValues, List.mem_flatten, List.mem_map]
  constructor
  · rintro ⟨l, ⟨r, hr, rfl⟩, hv⟩
    exact ⟨r, hr, hv⟩
  · rintro ⟨r, hr, hv⟩
    exact ⟨_, ⟨r, hr, rfl⟩, hv⟩

/-- The rank-local minimum drops below a physical bound `c ≤ 1.e6` exactly
when some scanned entry of that rank does. -/
theorem localMinT_lt_iff (hasFace : Bool) (r : RankTemps) (c : ℚ)
    (hc : c ≤ minSentinel) :
    localMinT hasFace r < c ↔
      ∃ x ∈ r.cells ++ if hasFace then r.faces else [], x < c := by
  cases hasFace with
  | false =>
      show r.cells.foldl min minSentinel < c ↔ ∃ x ∈ r.cells ++ [], x < c
      rw [List.append_nil, foldl_min_lt_iff]
      exact or_iff_right (not_lt.mpr hc)
  | true =>
      show min (r.cells.foldl min minSentinel) (r.faces.foldl min minSentinel)
            < c ↔ ∃ x ∈ r.cells ++ r.faces, x < c
      rw [min_lt_iff, foldl_min_lt_iff, foldl_min_lt_iff]
      constructor
      · rintro ((h | ⟨x, hx, hxc⟩) | (h | ⟨x, hx, hxc⟩))
        · exact absurd h (not_lt.mpr hc)
        · exact ⟨x, List.mem_append.mpr (Or.inl hx), hxc⟩
        · exact absurd h (not_lt.mpr hc)
        · exact ⟨x, List.mem_append.mpr (Or.inr hx), hxc⟩
      · rintro ⟨x, hx, hxc⟩
        rcases List.mem_append.mp hx with hx | hx
        · exact Or.inl (Or.inr ⟨x, hx, hxc⟩)
        · exact Or.inr (Or.inr ⟨x, hx, hxc⟩)

/-- The rank-local maximum exceeds a physical bound `c ≥ -1.e6` exactly
when some scanned entry of that rank does. -/
theorem lt_localMaxT_iff (hasFace : Bool) (r : RankTemps) (c : ℚ)
    (hc : maxSentinel ≤ c) :
    c < localMaxT hasFace r ↔
      ∃ x ∈ r.cells ++ if hasFace then r.faces else [], c < x := by
  cases hasFace with
  | false =>
      show c < r.cells.foldl max maxSentinel ↔ ∃ x ∈ r.cells ++ [], c < x
      rw [List.append_nil, lt_foldl_max_iff]
      exact or_iff_right (not_lt.mpr hc)
  | true =>
      show c < max (r.cells.foldl max maxSentinel) (r.faces.foldl max maxSentinel)
            ↔ ∃ x ∈ r.cells ++ r.faces, c < x
      rw [lt_max_iff, lt_foldl_max_iff, lt_foldl_max_iff]
      constructor
      · rintro ((h | ⟨x, hx, hxc⟩) | (h | ⟨x, hx, hxc⟩))
        · exact absurd h (not_lt.mpr hc)
        · exact ⟨x, List.mem_append.mpr (Or.inl hx), hxc⟩
        · exact absurd h (not_lt.mpr hc)
        · exact ⟨x, List.mem_append.mpr (Or.inr hx), hxc⟩
      · rintro ⟨x, hx, hxc⟩
        rcases List.mem_append.mp hx with hx | hx
        · exact Or.inl (Or.inr ⟨x, hx, hxc⟩)
        · exact Or.inr (Or.inr ⟨x, hx, hxc⟩)

/-- The globally reduced minimum drops below `200` exactly when some
scanned value, on any rank, is below `200`. -/
theorem globalMin_lt_iff (s : TempState) (h : s.ranks ≠ []) :
    minAll (s.ranks.map (localMinT s.hasFace)) < 200 ↔
      ∃ v ∈ allTempValues s, v < 200 := by
  rw [minAll_lt_iff _ (by simpa using h) 200]
  constructor
  · rintro ⟨x, hx, hxc⟩
    obtain ⟨r, hr, rfl⟩ := List.mem_map.mp hx
    obtain ⟨v, hv, hvc⟩ :=
      (localMinT_lt_iff s.hasFace r 200 (by norm_num [minSentinel])).mp hxc
    exact ⟨v, (mem_allTempValues s v).mpr ⟨r, hr, hv⟩, hvc⟩
  · rintro ⟨v, hv, hvc⟩
    obtain ⟨r, hr, hvr⟩ := (mem_allTempValues s v).mp hv
    refine ⟨localMinT s.hasFace r, List.mem_map.mpr ⟨r, hr, rfl⟩, ?_⟩
    exact (localMinT_lt_iff s.hasFace r 200 (by norm_num [minSentinel])).mpr
      ⟨v, hvr, hvc⟩

/-- The globally reduced maximum exceeds `330` exactly when some scanned
value, on any rank, is above `330`. -/
theorem lt_globalMax_iff (s : TempState) (h : s.ranks ≠ []) :
    330 < maxAll (s.ranks.map (localMaxT s.hasFace)) ↔
      ∃ v ∈ allTempValues s, 330 < v := by
  rw [lt_maxAll_iff _ (by simpa using h) 330]
  constructor
  · rintro ⟨x, hx, hxc⟩
    obtain ⟨r, hr, rfl⟩ := List.mem_map.mp hx
    obtain ⟨v, hv, hvc⟩ :=
      (lt_localMaxT_iff s.hasFace r 330 (by norm_num [maxSentinel])).mp hxc
    exact ⟨v, (mem_allTempValues s v).mpr ⟨r, hr, hv⟩, hvc⟩
  · rintro ⟨v, hv, hvc⟩
    obtain ⟨r, hr, hvr⟩ := (mem_allTempValues s v).mp hv
    refine ⟨localMaxT s.hasFace r, List.mem_map.mpr ⟨r, hr, rfl⟩, ?_⟩
    exact (lt_localMaxT_iff s.hasFace r 330 (by norm_num [maxSentinel])).mpr
      ⟨v, hvr, hvc⟩

/-- C1: `EnergyBase::IsAdmissible(u)` returns false iff the global
(across-rank reduced) minimum of all cell (and, when present, face) values
is strictly below `200.0`, or the global maximum is strictly above `330.0`;
the true global extrema of the distributed values decide, not any per-rank
local extremum.  In particular a state whose minimum is exactly `200` and
maximum at most `330` is admissible, and one containing a value one unit
below `200` is not. -/
theorem isAdmissible_false_iff_bounds (s : TempState)
    (h : allTempValues s ≠ []) :
    isAdmissible s = false ↔
      (trueMin (allTempValues s) < 200 ∨ 330 < trueMax (allTempValues s)) := by
  have hranks : s.ranks ≠ [] := by
    intro hr
    apply h
    simp [allTempValues, hr]
  have hmin := globalMin_lt_iff s hranks
  have hmax := lt_globalMax_iff s hranks
  have htmin := trueMin_lt_iff (allTempValues s) h 200
  have htmax := lt_trueMax_iff (allTempValues s) h 330
  simp only [isAdmissible]
  by_cases hcond :
      minAll (s.ranks.map (localMinT s.hasFace)) < 200 ∨
        330 < maxAll (s.ranks.map (localMaxT s.hasFace))
  · rw [if_pos (by exact_mod_cast hcond)]
    simp only [true_iff]
    rcases hcond with hc | hc
    · exact Or.inl (htmin.mpr (hmin.mp hc))
    · exact Or.inr (htmax.mpr (hmax.mp hc))
  · rw [if_neg (by exact_mod_cast hcond)]
    simp only [Bool.true_eq_false, false_iff]
    push_neg at hcond
    rintro (hc | hc)
    · exact absurd (hmin.mpr (htmin.mp hc)) (not_lt.mpr hcond.1)
    · exact absurd (hmax.mpr (htmax.mp hc)) (not_lt.mpr hcond.2)

/-- Witness for C1: a two-rank state whose second rank holds the value
`199` (one unit below the lower bound) is rejected, and indeed its true
global minimum `199` is below `200` — the decision saw the other rank's
extremum, not only the local one. -/
theorem isAdmissible_false_iff_bounds_witness :
    allTempValues ⟨false, [⟨[250], []⟩, ⟨[199, 300], []⟩]⟩ ≠ [] ∧
      (isAdmissible ⟨false, [⟨[250], []⟩, ⟨[199, 300], []⟩]⟩ = false ↔
        (trueMin (allTempValues ⟨false, [⟨[250], []⟩, ⟨[199, 300], []⟩]⟩) < 200 ∨
          330 < trueMax (allTempValues ⟨false, [⟨[250], []⟩, ⟨[199, 300], []⟩]⟩))) :=
  ⟨by decide, isAdmissible_false_iff_bounds _ (by decide)⟩

/-- A correction-modification result equals `CORRECTION_MODIFIED` exactly
when the across-rank limited count is positive. -/
theorem mcResult_eq_modified_iff (n : ℕ) :
    ((if n > 0 then ModifyCorrectionResult.CORRECTION_MODIFIED
        else .CORRECTION_NOT_MODIFIED) = .CORRECTION_MODIFIED) ↔ 0 < n := by
  by_cases h : n > 0
  · simp [h]
  · simp [h]

/-- The clipped-entry count of one component is positive exactly when some
entry exceeds the limit in magnitude. -/
theorem numLimited_pos_iff (t : ℚ) (l : List ℚ) :
    0 < numLimited t l ↔ ∃ v ∈ l, t < |v| := by
  simp [numLimited, List.countP_pos_iff]

/-- The across-rank limited count on a single-rank communicator is
positive exactly when a positive limit is configured and some entry of a
scanned component exceeds it. -/
theorem correctionLimitedCount_pos_iff (tLimit : ℚ) (hasBF : Bool)
    (dT_c dT_bf1 : List ℚ) :
    0 < correctionLimitedCount tLimit hasBF dT_c dT_bf1 0 ↔
      0 < tLimit ∧ ((∃ v ∈ dT_c, tLimit < |v|) ∨
        (hasBF = true ∧ ∃ v ∈ dT_bf1, tLimit < |v|)) := by
  by_cases ht : tLimit > 0
  · rw [correctionLimitedCount, if_pos ht]
    cases hasBF with
    | false =>
        simp only [Bool.false_eq_true, if_false, false_and, or_false,
          Nat.add_zero]
        rw [numLimited_pos_iff]
        exact ⟨fun h => ⟨ht, h⟩, fun h => h.2⟩
    | true =>
        simp only [if_true, true_and, Nat.add_zero]
        constructor
        · intro hn
          have hcase : 0 < numLimited tLimit dT_c ∨
              0 < numLimited tLimit dT_bf1 := by
            by_contra hno
            push_neg at hno
            omega
          rcases hcase with ha | hb
          · exact ⟨ht, Or.inl ((numLimited_pos_iff _ _).mp ha)⟩
          · exact ⟨ht, Or.inr ((numLimited_pos_iff _ _).mp hb)⟩
        · rintro ⟨_, hc | hc⟩
          · have := (numLimited_pos_iff _ _).mpr hc
            omega
          · have := (numLimited_pos_iff _ _).mpr hc
            omega
  · rw [correctionLimitedCount, if_neg ht]
    simp [ht]

/-- Counterexample for C2: with the default `T_limit_ = -1` (no clipping
configured), a boundary face under a diffusive-flux BC has its correction
entry rewritten by the reconstruction from `0` to `2`, yet
`EnergyBase::ModifyCorrection` returns `CORRECTION_NOT_MODIFIED`: the
claim that `du` is only left unchanged when `NOT_MODIFIED` is returned is
false on the code. -/
theorem modifyCorrection_not_modified_despite_change :
    (modifyCorrection ⟨fun _ => .NEUMANN, fun _ => .DIRICHLET, fun _ => 0,
          fun _ => 1, fun _ => 1, fun _ => 0, fun _ => 0⟩ true (-1) 0
          [5] [7] [0] [0]).2 = .CORRECTION_NOT_MODIFIED ∧
      (modifyCorrection ⟨fun _ => .NEUMANN, fun _ => .DIRICHLET, fun _ => 0,
          fun _ => 1, fun _ => 1, fun _ => 0, fun _ => 0⟩ true (-1) 0
          [5] [7] [0] [0]).1.2 = [2] ∧ ([2] : List ℚ) ≠ [0] := by
  refine ⟨rfl, ?_, by decide⟩
  show reconstructBF ⟨fun _ => .NEUMANN, fun _ => .DIRICHLET, fun _ => 0,
      fun _ => 1, fun _ => 1, fun _ => 0, fun _ => 0⟩ [5] [7] [0] [0] = [2]
  rw [reconstructBF]
  show [(7 : ℚ) - (1 * (5 - 0) - 0 * 1) / 1] = [2]
  norm_num

/-- C2 amended: `EnergyBase::ModifyCorrection` returns
`CORRECTION_MODIFIED` iff the temperature-limit clipping stage actually
limited at least one entry — a positive configured limit with some entry
of the (post-reconstruction) correction exceeding it in magnitude (here on
a single-rank communicator); the boundary-face reconstruction can alter
`du` without `MODIFIED` being reported, by design ("not really modifying
the correction as far as NKA is concerned"). -/
theorem modifyCorrection_modified_iff_clipped (ctx : EnergyBCContext)
    (hasBF : Bool) (tLimit : ℚ) (T_c T_bf dT_c dT_bf : List ℚ) :
    (modifyCorrection ctx hasBF tLimit 0 T_c T_bf dT_c dT_bf).2 =
        .CORRECTION_MODIFIED ↔
      0 < tLimit ∧ ((∃ v ∈ dT_c, tLimit < |v|) ∨
        (hasBF = true ∧
          ∃ v ∈ reconstructBF ctx T_c T_bf dT_c dT_bf, tLimit < |v|)) := by
  cases hasBF with
  | false =>
      show (if correctionLimitedCount tLimit false dT_c dT_bf 0 > 0 then
          ModifyCorrectionResult.CORRECTION_MODIFIED
        else .CORRECTION_NOT_MODIFIED) = .CORRECTION_MODIFIED ↔ _
      rw [mcResult_eq_modified_iff, correctionLimitedCount_pos_iff]
      simp
  | true =>
      show (if correctionLimitedCount tLimit true dT_c
            (reconstructBF ctx T_c T_bf dT_c dT_bf) 0 > 0 then
          ModifyCorrectionResult.CORRECTION_MODIFIED
        else .CORRECTION_NOT_MODIFIED) = .CORRECTION_MODIFIED ↔ _
      rw [mcResult_eq_modified_iff, correctionLimitedCount_pos_iff]

/-- The freezing snap is a fixed point on its own output: the snapped
value still satisfies the trigger condition, so a repeated application
rewrites the same value and reports the same flag. -/
theorem freezeSnap_fixed (x y : ℚ) :
    freezeSnap x (freezeSnap x y).1 = freezeSnap x y := by
  by_cases h1 : x > 27315 / 100 ∧ y < 27315 / 100
  · have hin : freezeSnap x y = (27315 / 100 - 1 / 100000, true) := by
      rw [freezeSnap, if_pos h1]
    rw [hin]
    show freezeSnap x (27315 / 100 - 1 / 100000) = _
    rw [freezeSnap, if_pos ⟨h1.1, by norm_num⟩]
  · by_cases h2 : x < 27315 / 100 ∧ y > 27315 / 100
    · have hin : freezeSnap x y = (27315 / 100 + 1 / 100000, true) := by
        rw [freezeSnap, if_neg h1, if_pos h2]
      rw [hin]
      show freezeSnap x (27315 / 100 + 1 / 100000) = _
      have hn1 : ¬(x > 27315 / 100 ∧ (27315 / 100 + 1 / 100000 : ℚ) <
          27315 / 100) := by
        rintro ⟨_, hy⟩
        norm_num at hy
      rw [freezeSnap, if_neg hn1, if_pos ⟨h2.1, by norm_num⟩]
    · have hin : freezeSnap x y = (y, false) := by
        rw [freezeSnap, if_neg h1, if_neg h2]
      rw [hin]
      show freezeSnap x y = _
      rw [hin]

/-- The freezing-snap loop is a fixed point on its own output, values and
flag alike. -/
theorem snapList_fixed (u0 u : List ℚ) :
    snapList u0 (snapList u0 u).1 = snapList u0 u := by
  induction u0 generalizing u with
  | nil => rfl
  | cons x xs ih =>
      cases u with
      | nil => rfl
      | cons y ys => simp only [snapList, freezeSnap_fixed, ih]

/-- Counterexample for C3: with "modify predictor for freezing" set, a
cell predicted at `273` from `u0 = 274` is snapped to `273.14999`
(`modified = true`), but the second call on that output returns
`modified = true` again — the snapped value still satisfies the trigger
condition — refuting the claim that the second call returns
`modified = false`. -/
theorem modifyPredictor_second_call_reports_modified :
    (modifyPredictor true false (fun v => v.face) ⟨[274], none, []⟩
        ⟨[273], none, []⟩).1 =
      ⟨[27315 / 100 - 1 / 100000], none, []⟩ ∧
    (modifyPredictor true false (fun v => v.face) ⟨[274], none, []⟩
        ⟨[273], none, []⟩).2 = true ∧
    (modifyPredictor true false (fun v => v.face) ⟨[274], none, []⟩
        ((modifyPredictor true false (fun v => v.face) ⟨[274], none, []⟩
          ⟨[273], none, []⟩).1)).2 = true := by
  have h1 : freezeSnap 274 273 = (27315 / 100 - 1 / 100000, true) := by
    rw [freezeSnap, if_pos (by norm_num)]
  have h2 : snapList [274] [273] = ([27315 / 100 - 1 / 100000], true) := by
    simp only [snapList, h1, Bool.or_false]
  have h3 : modifyPredictor true false (fun v => v.face) ⟨[274], none, []⟩
      ⟨[273], none, []⟩ = (⟨[27315 / 100 - 1 / 100000], none, []⟩, true) := by
    show ((⟨(snapList [274] [273]).1, none, []⟩ : PredVec),
      (snapList [274] [273]).2) = _
    rw [h2]
  have h4 : snapList [274] [27315 / 100 - 1 / 100000] =
      ([27315 / 100 - 1 / 100000], true) := by
    have hf : freezeSnap 274 (27315 / 100 - 1 / 100000) =
        (27315 / 100 - 1 / 100000, true) := by
      rw [freezeSnap, if_pos ⟨by norm_num, by norm_num⟩]
    simp only [snapList, hf, Bool.or_false]
  refine ⟨by rw [h3], by rw [h3], ?_⟩
  rw [h3]
  show (snapList [274] [27315 / 100 - 1 / 100000]).2 = true
  rw [h4]

/-- C3 amended: with "modify predictor with consistent faces" disabled,
`EnergyBase::ModifyPredictor` is a fixed point on its own output — the
second call changes no value — but it returns the same `modified` flag as
the first call (true again whenever the first call snapped anything, since
the snapped value still satisfies the freezing trigger), not `false`; and
with consistent faces enabled every call returns `modified = true`
unconditionally. -/
theorem modifyPredictor_freezing_fixed_point (freezing : Bool)
    (ccFaces : PredVec → List ℚ) (u0 u : PredVec) :
    modifyPredictor freezing false ccFaces u0
        (modifyPredictor freezing false ccFaces u0 u).1 =
      modifyPredictor freezing false ccFaces u0 u ∧
    ∀ (fz : Bool) (u' : PredVec),
      (modifyPredictor fz true ccFaces u0 u').2 = true := by
  constructor
  · cases freezing with
    | false => rfl
    | true =>
        cases hb0 : u0.bf with
        | none =>
            cases hb : u.bf with
            | none => simp [modifyPredictor, hb0, hb, snapList_fixed]
            | some b => simp [modifyPredictor, hb0, hb, snapList_fixed]
        | some b0 =>
            cases hb : u.bf with
            | none => simp [modifyPredictor, hb0, hb, snapList_fixed]
            | some b => simp [modifyPredictor, hb0, hb, snapList_fixed]
  · intro fz u'
    rfl

/-- C4: on the first `HasFieldChanged` query after a dependency-change
event (for example the very first query on a freshly initialized
evaluator), `WaterTableColumnsEvaluator::HasFieldChanged` executes the
pointwise evaluation function twice — once inside the base-class
recompute and once more in the unconditional `UpdateField_` of the
override — where the at-most-one-recompute invariant requires exactly
one; subsequent unchanged queries do return false without further
recomputation. -/
theorem wt_first_query_recomputes_twice :
    (wtHasFieldChanged ⟨0, true, [], false⟩ "pk").1.recomputeCount = 2 ∧
      (wtHasFieldChanged ⟨0, true, [], false⟩ "pk").2 = true ∧
      (wtHasFieldChanged (wtHasFieldChanged ⟨0, true, [], false⟩ "pk").1
          "pk").2 = false ∧
      (wtHasFieldChanged (wtHasFieldChanged ⟨0, true, [], false⟩ "pk").1
          "pk").1.recomputeCount = 2 := by
  decide

/-- C5: `MPCSubsurface::setup` maps the configured "preconditioner type"
string to a strategy as a total case analysis: `"none"`, `"block
diagonal"`, `"picard"` (also the default when the key is absent), `"ewc"`
and `"smart ewc"` select their strategies, and any other string raises a
fatal configuration error naming the offending value — setup never
silently continues with an unknown preconditioner type. -/
theorem setupPreconType_total_case_analysis :
    setupPreconType none = .ok .PRECON_PICARD ∧
    setupPreconType (some "none") = .ok .PRECON_NONE ∧
    setupPreconType (some "block diagonal") = .ok .PRECON_BLOCK_DIAGONAL ∧
    setupPreconType (some "picard") = .ok .PRECON_PICARD ∧
    setupPreconType (some "ewc") = .ok .PRECON_EWC ∧
    setupPreconType (some "smart ewc") = .ok .PRECON_EWC ∧
    ∀ s : String,
      s ∉ (["none", "block diagonal", "picard", "ewc", "smart ewc"] : List String) →
      setupPreconType (some s) = .error ("Invalid preconditioner type " ++ s) := by
  refine ⟨rfl, rfl, rfl, rfl, rfl, rfl, ?_⟩
  intro s hs
  simp only [List.mem_cons, List.not_mem_nil, or_false, not_or] at hs
  obtain ⟨h1, h2, h3, h4, h5⟩ := hs
  simp [setupPreconType, h1, h2, h3, h4, h5]

/-- Witness for C5: the unknown string `"foo"` is rejected with a fatal
error naming it. -/
theorem setupPreconType_total_case_analysis_witness :
    "foo" ∉ (["none", "block diagonal", "picard", "ewc", "smart ewc"] : List String) ∧
      setupPreconType (some "foo") = .error ("Invalid preconditioner type " ++ "foo") :=
  ⟨by decide, setupPreconType_total_case_analysis.2.2.2.2.2.2 "foo" (by decide)⟩

/-- C6: the configuration strings `"ewc"` and `"smart ewc"` resolve to the
same `PRECON_EWC` strategy, so every subsequent `MPCSubsurface::precon`
and `MPCSubsurface::update_precon` dispatch executes the identical code
path and produces identical results for identical inputs, whatever the
collaborating operators do. -/
theorem ewc_smart_ewc_observationally_equivalent :
    setupPreconType (some "ewc") = setupPreconType (some "smart ewc") ∧
    setupPreconType (some "ewc") = .ok .PRECON_EWC ∧
    ∀ (V S : Type) (pops : MPCPreconOps V) (uops : MPCUpdateOps S)
      (t1 t2 : PreconType),
      setupPreconType (some "ewc") = .ok t1 →
      setupPreconType (some "smart ewc") = .ok t2 →
      (∀ u, mpcPrecon pops t1 u = mpcPrecon pops t2 u) ∧
      (∀ s, mpcUpdatePrecon uops t1 s = mpcUpdatePrecon uops t2 s) := by
  refine ⟨rfl, rfl, ?_⟩
  intro V S pops uops t1 t2 h1 h2
  have e1 : t1 = .PRECON_EWC := by
    injection h1.symm.trans (rfl : setupPreconType (some "ewc") = .ok .PRECON_EWC)
  have e2 : t2 = .PRECON_EWC := by
    injection h2.symm.trans
      (rfl : setupPreconType (some "smart ewc") = .ok .PRECON_EWC)
  subst e1; subst e2
  exact ⟨fun _ => rfl, fun _ => rfl⟩

/-- Witness for C6: at a concrete vector type and concrete collaborating
operators, the two configurations give the same preconditioner output. -/
theorem ewc_smart_ewc_observationally_equivalent_witness :
    setupPreconType (some "ewc") = .ok .PRECON_EWC ∧
      setupPreconType (some "smart ewc") = .ok .PRECON_EWC ∧
      mpcPrecon ⟨id, fun q => q + 1, fun u pu => u + pu, fun a b => a * b⟩
          .PRECON_EWC (3 : ℚ) =
        mpcPrecon ⟨id, fun q => q + 1, fun u pu => u + pu, fun a b => a * b⟩
          .PRECON_EWC (3 : ℚ) :=
  ⟨rfl, rfl,
    (ewc_smart_ewc_observationally_equivalent.2.2 ℚ ℚ
      ⟨id, fun q => q + 1, fun u pu => u + pu, fun a b => a * b⟩
      ⟨id, id, id⟩ .PRECON_EWC .PRECON_EWC rfl rfl).1 3⟩

/-- The dependency loop of `OverlandConductivitySubgridEvaluator::
EnsureCompatibility` throws the self-dependency message whenever the
primary key occurs among the declared dependencies. -/
theorem overlandCompatLoop_error_of_mem (myKey mdk : String) (hbf : Bool)
    (deps : List String) (h : myKey ∈ deps) :
    overlandCompatLoop myKey mdk hbf deps = .error (selfDepMsg myKey) := by
  induction deps with
  | nil => cases h
  | cons key rest ih =>
      rw [overlandCompatLoop]
      by_cases hk : key = myKey
      · rw [if_pos hk]
      · rw [if_neg hk]
        have hm : myKey ∈ rest := by
          rcases List.mem_cons.mp h with h1 | h1
          · exact absurd h1.symm hk
          · exact h1
        rw [ih hm]
        rfl

/-- C7: a self-dependency is rejected at graph-build time, not at
evaluation time: when the mesh is set (the graph-build-time compatibility
propagation), a dependency set containing the evaluator's own primary key
makes `OverlandConductivitySubgridEvaluator::EnsureCompatibility` throw a
fatal configuration error naming the key, before any call to the
evaluation function; `EvaluateField_` itself performs no cycle check — it
computes the pointwise value at every entity unconditionally, taking no
keys at all. -/
theorem overland_self_dependency_rejected_at_graph_build
    (myKey mobileDepthKey : String) (myHasBoundaryFace : Bool)
    (deps : List String) (h : myKey ∈ deps) :
    overlandEnsureCompatibility myKey mobileDepthKey true myHasBoundaryFace
        deps = .error (selfDepMsg myKey) ∧
    ∀ (fpow : ℚ → ℚ → ℚ) (model : ManningModel) (d : OverlandDeps) (n i : ℕ),
      i < n →
      (overlandEvaluateField fpow model d n)[i]? =
        some (model.Conductivity (d.mobile_depth.getD i 0) (d.slope.getD i 0)
            (d.coef.getD i 0) *
          (d.dens.getD i 0 *
            fpow (d.frac_cond.getD i 0) (d.drag.getD i 0 + 1))) := by
  constructor
  · show overlandCompatLoop myKey mobileDepthKey myHasBoundaryFace deps = _
    exact overlandCompatLoop_error_of_mem myKey mobileDepthKey
      myHasBoundaryFace deps h
  · intro fpow model d n i hi
    simp [overlandEvaluateField, List.getElem?_map, List.getElem?_range, hi]

/-- Witness for C7: an evaluator for `"overland_conductivity"` whose
dependency set contains its own key is rejected with the fatal message
naming the key. -/
theorem overland_self_dependency_rejected_at_graph_build_witness :
    "overland_conductivity" ∈
        ["mobile_depth", "overland_conductivity", "slope_magnitude"] ∧
      overlandEnsureCompatibility "overland_conductivity" "mobile_depth" true
          false ["mobile_depth", "overland_conductivity", "slope_magnitude"] =
        .error (selfDepMsg "overland_conductivity") :=
  ⟨by decide,
    (overland_self_dependency_rejected_at_graph_build "overland_conductivity"
      "mobile_depth" false _ (by decide)).1⟩

/-- C8: secondary-evaluator evaluation is elementwise.
`RichardsEnergyEvaluator::EvaluateField_` and
`LiquidIceEnergyEvaluator::EvaluateField_` set `result[i]` on every
component to the pure model `Energy` function applied to the dependency
values at the same index `i` only; each entity's output is a function of
exactly its co-located inputs, so two dependency states agreeing at index
`i` produce the same result there, whatever their other entries. -/
theorem energy_evaluateField_elementwise :
    (∀ (mR : RichardsEnergyModel) (dR dR' : RichardsCompDeps) (n i : ℕ),
      i < n →
      (richardsEvalComp mR dR n)[i]? = some (richardsEnergyAt mR dR i) ∧
      (richardsAgreeAt dR dR' i →
        richardsEnergyAt mR dR i = richardsEnergyAt mR dR' i)) ∧
    (∀ (mL : LiquidIceEnergyModel) (dS : String → LiquidIceCompDeps)
        (comps : List (String × ℕ)) (j : ℕ) (c : String) (n i : ℕ),
      comps[j]? = some (c, n) → i < n →
      (∃ vs, (liquidIceEvaluateField mL dS comps)[j]? = some (c, vs) ∧
        vs[i]? = some (liquidIceApplyAt mL.Energy (dS c) i)) ∧
      ∀ d' : LiquidIceCompDeps, liquidIceAgreeAt (dS c) d' i →
        liquidIceApplyAt mL.Energy (dS c) i =
          liquidIceApplyAt mL.Energy d' i) := by
  constructor
  · intro mR dR dR' n i hi
    constructor
    · simp [richardsEvalComp, List.getElem?_map, List.getElem?_range, hi]
    · rintro ⟨h1, h2, h3, h4, h5, h6, h7, h8⟩
      simp only [richardsEnergyAt, h1, h2, h3, h4, h5, h6, h7, h8]
  · intro mL dS comps j c n i hj hi
    constructor
    · refine ⟨(List.range n).map (liquidIceApplyAt mL.Energy (dS c)), ?_, ?_⟩
      · simp [liquidIceEvaluateField, liquidIceMapAll, List.getElem?_map, hj]
      · simp [List.getElem?_map, List.getElem?_range, hi]
    · rintro d' ⟨h1, h2, h3, h4, h5, h6, h7, h8, h9, h10, h11⟩
      simp only [liquidIceApplyAt, h1, h2, h3, h4, h5, h6, h7, h8, h9, h10, h11]

/-- Witness for C8: both evaluators, at a concrete model and concrete
single-entity dependency data, produce the model value of the co-located
inputs at index 0. -/
theorem energy_evaluateField_elementwise_witness :
    ((richardsEvalComp ⟨fun a b c d e f g h => a + b + c + d + e + f + g + h⟩
        ⟨[1], [2], [3], [4], [5], [6], [7], [8]⟩ 1)[0]? = some 36) ∧
      ∃ vs,
        (liquidIceEvaluateField
            ⟨fun a _ _ _ _ _ _ _ _ _ _ => a, fun a _ _ _ _ _ _ _ _ _ _ => a,
              fun a _ _ _ _ _ _ _ _ _ _ => a, fun a _ _ _ _ _ _ _ _ _ _ => a,
              fun a _ _ _ _ _ _ _ _ _ _ => a, fun a _ _ _ _ _ _ _ _ _ _ => a,
              fun a _ _ _ _ _ _ _ _ _ _ => a, fun a _ _ _ _ _ _ _ _ _ _ => a,
              fun a _ _ _ _ _ _ _ _ _ _ => a, fun a _ _ _ _ _ _ _ _ _ _ => a,
              fun a _ _ _ _ _ _ _ _ _ _ => a, fun a _ _ _ _ _ _ _ _ _ _ => a⟩
            (fun _ => ⟨[9], [2], [3], [4], [5], [6], [7], [8], [1], [2], [3]⟩)
            [("cell", 1)])[0]? = some ("cell", vs) ∧
          vs[0]? = some 9 := by
  constructor
  · have := (energy_evaluateField_elementwise.1
      ⟨fun a b c d e f g h => a + b + c + d + e + f + g + h⟩
      ⟨[1], [2], [3], [4], [5], [6], [7], [8]⟩
      ⟨[1], [2], [3], [4], [5], [6], [7], [8]⟩ 1 0 (by decide)).1
    rw [this]
    norm_num [richardsEnergyAt]
  · have := (energy_evaluateField_elementwise.2
      ⟨fun a _ _ _ _ _ _ _ _ _ _ => a, fun a _ _ _ _ _ _ _ _ _ _ => a,
        fun a _ _ _ _ _ _ _ _ _ _ => a, fun a _ _ _ _ _ _ _ _ _ _ => a,
        fun a _ _ _ _ _ _ _ _ _ _ => a, fun a _ _ _ _ _ _ _ _ _ _ => a,
        fun a _ _ _ _ _ _ _ _ _ _ => a, fun a _ _ _ _ _ _ _ _ _ _ => a,
        fun a _ _ _ _ _ _ _ _ _ _ => a, fun a _ _ _ _ _ _ _ _ _ _ => a,
        fun a _ _ _ _ _ _ _ _ _ _ => a, fun a _ _ _ _ _ _ _ _ _ _ => a⟩
      (fun _ => ⟨[9], [2], [3], [4], [5], [6], [7], [8], [1], [2], [3]⟩)
      [("cell", 1)] 0 "cell" 1 0 rfl (by decide)).1
    obtain ⟨vs, hvs, hv⟩ := this
    exact ⟨vs, hvs, by rw [hv]; rfl⟩

/-- C9: `LiquidIceEnergyEvaluator::EvaluateFieldPartialDerivative_`
supports exactly the direct dependencies: for `wrt_key` equal to one of
the eleven declared dependency keys it applies the model's corresponding
declared partial-derivative function elementwise and the
`AMANZI_ASSERT(0)` branch is unreachable; for any `wrt_key` that is not a
direct dependency no chain rule is applied and the call reaches the
assertion failure. -/
theorem liquidIce_partial_derivative_direct_only
    (m : LiquidIceEnergyModel) (k : LiquidIceKeys)
    (d : String → LiquidIceCompDeps) (comps : List (String × ℕ))
    (hnd : (liquidIceDepKeys k).Nodup) :
    (∀ wrt, wrt ∉ liquidIceDepKeys k →
      liquidIceEvaluatePD m k wrt d comps = .error ()) ∧
    liquidIceEvaluatePD m k k.phi_key d comps =
      .ok (liquidIceMapAll m.DEnergyDPorosity d comps) ∧
    liquidIceEvaluatePD m k k.phi0_key d comps =
      .ok (liquidIceMapAll m.DEnergyDBasePorosity d comps) ∧
    liquidIceEvaluatePD m k k.sl_key d comps =
      .ok (liquidIceMapAll m.DEnergyDSaturationLiquid d comps) ∧
    liquidIceEvaluatePD m k k.nl_key d comps =
      .ok (liquidIceMapAll m.DEnergyDMolarDensityLiquid d comps) ∧
    liquidIceEvaluatePD m k k.ul_key d comps =
      .ok (liquidIceMapAll m.DEnergyDInternalEnergyLiquid d comps) ∧
    liquidIceEvaluatePD m k k.si_key d comps =
      .ok (liquidIceMapAll m.DEnergyDSaturationIce d comps) ∧
    liquidIceEvaluatePD m k k.ni_key d comps =
      .ok (liquidIceMapAll m.DEnergyDMolarDensityIce d comps) ∧
    liquidIceEvaluatePD m k k.ui_key d comps =
      .ok (liquidIceMapAll m.DEnergyDInternalEnergyIce d comps) ∧
    liquidIceEvaluatePD m k k.rho_r_key d comps =
      .ok (liquidIceMapAll m.DEnergyDDensityRock d comps) ∧
    liquidIceEvaluatePD m k k.ur_key d comps =
      .ok (liquidIceMapAll m.DEnergyDInternalEnergyRock d comps) ∧
    liquidIceEvaluatePD m k k.cv_key d comps =
      .ok (liquidIceMapAll m.DEnergyDCellVolume d comps) := by
  simp only [liquidIceDepKeys, List.nodup_cons, List.mem_cons,
    List.not_mem_nil, or_false, not_or, List.nodup_nil, not_false_eq_true,
    and_true] at hnd
  obtain ⟨⟨a1, a2, a3, a4, a5, a6, a7, a8, a9, a10⟩,
    ⟨b1, b2, b3, b4, b5, b6, b7, b8, b9⟩, ⟨c1, c2, c3, c4, c5, c6, c7, c8⟩,
    ⟨d1, d2, d3, d4, d5, d6, d7⟩, ⟨e1, e2, e3, e4, e5, e6⟩,
    ⟨f1, f2, f3, f4, f5⟩, ⟨g1, g2, g3, g4⟩, ⟨i1, i2, i3⟩, ⟨j1, j2⟩, j3⟩ := hnd
  refine ⟨?_, ?_, ?_, ?_, ?_, ?_, ?_, ?_, ?_, ?_, ?_, ?_⟩
  · intro wrt hw
    simp only [liquidIceDepKeys, List.mem_cons, List.not_mem_nil, or_false,
      not_or] at hw
    obtain ⟨w1, w2, w3, w4, w5, w6, w7, w8, w9, w10, w11⟩ := hw
    simp [liquidIceEvaluatePD, w1, w2, w3, w4, w5, w6, w7, w8, w9, w10, w11]
  · simp [liquidIceEvaluatePD]
  · simp [liquidIceEvaluatePD, Ne.symm a1]
  · simp [liquidIceEvaluatePD, Ne.symm a2, Ne.symm b1]
  · simp [liquidIceEvaluatePD, Ne.symm a3, Ne.symm b2, Ne.symm c1]
  · simp [liquidIceEvaluatePD, Ne.symm a4, Ne.symm b3, Ne.symm c2, Ne.symm d1]
  · simp [liquidIceEvaluatePD, Ne.symm a5, Ne.symm b4, Ne.symm c3, Ne.symm d2,
      Ne.symm e1]
  · simp [liquidIceEvaluatePD, Ne.symm a6, Ne.symm b5, Ne.symm c4, Ne.symm d3,
      Ne.symm e2, Ne.symm f1]
  · simp [liquidIceEvaluatePD, Ne.symm a7, Ne.symm b6, Ne.symm c5, Ne.symm d4,
      Ne.symm e3, Ne.symm f2, Ne.symm g1]
  · simp [liquidIceEvaluatePD, Ne.symm a8, Ne.symm b7, Ne.symm c6, Ne.symm d5,
      Ne.symm e4, Ne.symm f3, Ne.symm g2, Ne.symm i1]
  · simp [liquidIceEvaluatePD, Ne.symm a9, Ne.symm b8, Ne.symm c7, Ne.symm d6,
      Ne.symm e5, Ne.symm f4, Ne.symm g3, Ne.symm i2, Ne.symm j1]
  · simp [liquidIceEvaluatePD, Ne.symm a10, Ne.symm b9, Ne.symm c8, Ne.symm d7,
      Ne.symm e6, Ne.symm f5, Ne.symm g4, Ne.symm i3, Ne.symm j2, Ne.symm j3]

/-- Witness for C9: with the default dependency key names, a derivative
request with respect to `"temperature"` — not a direct dependency —
reaches the assertion failure. -/
theorem liquidIce_partial_derivative_direct_only_witness :
    (liquidIceDepKeys ⟨"porosity", "base_porosity", "saturation_liquid",
        "molar_density_liquid", "internal_energy_liquid", "saturation_ice",
        "molar_density_ice", "internal_energy_ice", "density_rock",
        "internal_energy_rock", "cell_volume"⟩).Nodup ∧
      liquidIceEvaluatePD
          ⟨fun a _ _ _ _ _ _ _ _ _ _ => a, fun a _ _ _ _ _ _ _ _ _ _ => a,
            fun a _ _ _ _ _ _ _ _ _ _ => a, fun a _ _ _ _ _ _ _ _ _ _ => a,
            fun a _ _ _ _ _ _ _ _ _ _ => a, fun a _ _ _ _ _ _ _ _ _ _ => a,
            fun a _ _ _ _ _ _ _ _ _ _ => a, fun a _ _ _ _ _ _ _ _ _ _ => a,
            fun a _ _ _ _ _ _ _ _ _ _ => a, fun a _ _ _ _ _ _ _ _ _ _ => a,
            fun a _ _ _ _ _ _ _ _ _ _ => a, fun a _ _ _ _ _ _ _ _ _ _ => a⟩
          ⟨"porosity", "base_porosity", "saturation_liquid",
            "molar_density_liquid", "internal_energy_liquid", "saturation_ice",
            "molar_density_ice", "internal_energy_ice", "density_rock",
            "internal_energy_rock", "cell_volume"⟩
          "temperature" (fun _ => ⟨[1], [1], [1], [1], [1], [1], [1], [1],
            [1], [1], [1]⟩) [("cell", 1)] = .error () :=
  ⟨by decide,
    (liquidIce_partial_derivative_direct_only _
      ⟨"porosity", "base_porosity", "saturation_liquid",
        "molar_density_liquid", "internal_energy_liquid", "saturation_ice",
        "molar_density_ice", "internal_energy_ice", "density_rock",
        "internal_energy_rock", "cell_volume"⟩ _ _ (by decide)).1
      "temperature" (by decide)⟩

/-- C10: `FATES_PK::AdvanceStep(t_old, t_new, reinit)` returns `false` on
every invocation, regardless of its inputs and of which sub-cycle branches
(photosynthesis, vegetation dynamics) run: the FATES process kernel never
signals step failure to the driver. -/
theorem FATES_advanceStep_never_fails (s : FatesState) (t_old t_new : ℚ)
    (reinit : Bool) :
    (FATES_advanceStep s t_old t_new reinit).2 = false := rfl

end ATS
